import Mathlib

/-!
Shallow embedding of the browser-scraper-pool core
(src/browser_scraper_pool/pool/{context_pool,rate_limiter,eviction,request_queue}.py
and src/browser_scraper_pool/api/scrape.py).

Modelling conventions:
* timestamps are integers (milliseconds of wall time), passed explicitly as
  a `now` parameter where Python calls `datetime.now`;
* Python `set[str]` becomes `Finset String`; Python dicts keyed by context id
  become insertion-ordered lists (`dict` preserves insertion order);
* driver / I/O calls (playwright, disk) carry no in-memory pool state; they are
  either omitted or represented by an explicit outcome record (`DriverOutcome`);
* Python floats in scoring become `ℚ` (the exact arithmetic of the formulas);
* raising becomes `Except PoolError`.
-/

deriving instance DecidableEq for Except

namespace BrowserScraperPool

/-- Configuration values read from `settings` (config.py). -/
structure PoolConfig where
  max_contexts : Nat
  default_domain_delay_ms : Int
  max_queue_wait : Int
  max_consecutive_errors : Nat
  eviction_idle_weight : ℚ
  eviction_error_weight : ℚ
  eviction_age_weight : ℚ
  deriving Repr, DecidableEq

/-- Error kinds raised by the pool (context_pool.py exception classes). -/
inductive PoolError where
  | poolNotStarted
  | contextNotFound (id : String)
  | contextInUse
  | contextNotAvailable
  deriving Repr, DecidableEq

/-- In-memory metadata of one browser context (`ContextInstance` dataclass).
The opaque driver handles (`context`, `page`), `storage_path` and
`cdp_target_url` carry no pool logic and are omitted. -/
structure ContextInstance where
  id : String
  proxy : Option String := none
  persistent : Bool := false
  tags : Finset String := ∅
  in_use : Bool := false
  created_at : Int := 0
  last_used_at : Option Int := none
  total_requests : Nat := 0
  error_count : Nat := 0
  consecutive_errors : Nat := 0
  domain_last_request : List (String × Int) := []
  deriving DecidableEq

/-- The mutable pool state of `ContextPool`: the context dict (insertion
ordered) and the started flag. -/
structure PoolState where
  contexts : List ContextInstance := []
  started : Bool := false
  deriving DecidableEq

/-- Number of contexts in the pool (`ContextPool.size`). -/
def PoolState.size (p : PoolState) : Nat := p.contexts.length

/-! ## Rate limiter (rate_limiter.py) -/

/-- DomainRateLimiter.can_request: true iff no prior request to `domain`, or
elapsed time since it is at least the effective delay. -/
def can_request (ctx : ContextInstance) (domain : String) (delay_ms : Option Int)
    (default_delay : Int) (now : Int) : Bool :=
  let delay := delay_ms.getD default_delay
  match ctx.domain_last_request.lookup domain with
  | none => true
  | some last => now - last ≥ delay

/-- DomainRateLimiter.record_request: stamp the domain, stamp last_used_at,
bump total_requests. -/
def record_request (ctx : ContextInstance) (domain : String) (now : Int) :
    ContextInstance :=
  { ctx with
    domain_last_request := (domain, now) :: ctx.domain_last_request.eraseP (·.1 == domain)
    last_used_at := some now
    total_requests := ctx.total_requests + 1 }

/-- DomainRateLimiter.record_error: bump error_count and consecutive_errors. -/
def record_error (ctx : ContextInstance) : ContextInstance :=
  { ctx with
    error_count := ctx.error_count + 1
    consecutive_errors := ctx.consecutive_errors + 1 }

/-- DomainRateLimiter.record_success: reset consecutive_errors to zero. -/
def record_success (ctx : ContextInstance) : ContextInstance :=
  { ctx with consecutive_errors := 0 }

/-- One call into the rate limiter's context bookkeeping. -/
inductive RecordOp where
  | request (domain : String) (now : Int)
  | error
  | success
  deriving Repr, DecidableEq

/-- Apply one bookkeeping call to a context. -/
def applyRecord (ctx : ContextInstance) : RecordOp → ContextInstance
  | .request d n => record_request ctx d n
  | .error => record_error ctx
  | .success => record_success ctx

/-- Apply a sequence of bookkeeping calls left to right. -/
def runRecords (ctx : ContextInstance) (ops : List RecordOp) : ContextInstance :=
  ops.foldl applyRecord ctx

/-! ## URL parsing (Python urllib.parse.urlparse, as used by extract_domain) -/

/-- Characters Python's urlsplit accepts inside a scheme after the first
letter: alphanumerics and `+`, `-`, `.`. -/
def isSchemeChar (c : Char) : Bool :=
  c.isAlphanum || c = '+' || c = '-' || c = '.'

/-- Split a character list at its first colon: `some (before, after)` when a
colon occurs, `none` otherwise. -/
def splitOnColon : List Char → Option (List Char × List Char)
  | [] => none
  | c :: cs =>
    if c = ':' then some ([], cs)
    else
      match splitOnColon cs with
      | none => none
      | some (p, q) => some (c :: p, q)

/-- Longest strict head of the list containing none of the stop characters
(Python's split-at-first-delimiter, kept part). -/
def takeUntil (stops : List Char) : List Char → List Char
  | [] => []
  | c :: cs => if stops.contains c then [] else c :: takeUntil stops cs

/-- Drop the scheme of a URL the way urlsplit does: when the text before the
first colon is a nonempty valid scheme (leading letter, scheme chars), the
remainder after the colon; otherwise the input unchanged. The scheme itself
is discarded (urlsplit lowercases only the scheme, never the netloc). -/
def afterScheme (s : List Char) : List Char :=
  match splitOnColon s with
  | none => s
  | some (pre, post) =>
    match pre with
    | [] => s
    | c :: cs => if c.isAlpha && (c :: cs).all isSchemeChar then post else s

/-- DomainRateLimiter.extract_domain: urlparse(url).netloc when nonempty,
else the first `/`-separated segment of the parsed path. The netloc is the
text between `//` and the next `/`, `?` or `#`, case preserved. -/
def extract_domain (url : String) : String :=
  match afterScheme url.data with
  | '/' :: '/' :: rest =>
    let netloc := takeUntil ['/', '?', '#'] rest
    if netloc.isEmpty then ⟨takeUntil ['/', '?', '#'] (rest.drop netloc.length)⟩
    else ⟨netloc⟩
  | s => ⟨takeUntil ['/', '?', '#'] s⟩

/-- Modelled from the spec: "the network authority, lowercased, including
port if present" — the URL's authority component with every character
lowercased. Used only to compare the spec's sentence against the code. -/
def spec_extract_domain (url : String) : String :=
  match afterScheme url.data with
  | '/' :: '/' :: rest => ⟨(takeUntil ['/', '?', '#'] rest).map Char.toLower⟩
  | _ => ""

/-! ## Eviction scorer (eviction.py) -/

/-- calculate_eviction_score: `none` models Python's `-inf` (in-use or
protected contexts are never evicted); otherwise the weighted sum of idle
time, scaled error rate and age. -/
def calculate_eviction_score (cfg : PoolConfig) (ctx : ContextInstance)
    (now : Int) : Option ℚ :=
  if ctx.in_use ∨ "protected" ∈ ctx.tags then none
  else
    let idle_seconds : ℚ := ((now - ctx.last_used_at.getD ctx.created_at : Int) : ℚ)
    let error_rate : ℚ :=
      if ctx.total_requests > 0 then
        (ctx.error_count : ℚ) / (ctx.total_requests : ℚ)
      else 0
    let age_seconds : ℚ := ((now - ctx.created_at : Int) : ℚ)
    some (cfg.eviction_idle_weight * idle_seconds
      + cfg.eviction_error_weight * error_rate * 100
      + cfg.eviction_age_weight * age_seconds)

/-- One step of find_eviction_candidate's best-so-far loop. -/
def evictStep (cfg : PoolConfig) (exclude_tags : Option (Finset String))
    (now : Int) (best : Option (ContextInstance × ℚ)) (ctx : ContextInstance) :
    Option (ContextInstance × ℚ) :=
  if (exclude_tags.getD ∅) ∩ ctx.tags ≠ ∅ then best
  else
    match calculate_eviction_score cfg ctx now with
    | none => best
    | some sc =>
      match best with
      | none => some (ctx, sc)
      | some (b, bs) => if sc > bs then some (ctx, sc) else some (b, bs)

/-- find_eviction_candidate: highest-scoring evictable context, first one on
ties; `none` when every context is in use, protected or excluded. -/
def find_eviction_candidate (cfg : PoolConfig) (contexts : List ContextInstance)
    (exclude_tags : Option (Finset String)) (now : Int) :
    Option ContextInstance :=
  (contexts.foldl (evictStep cfg exclude_tags now) none).map Prod.fst

/-- should_recreate: consecutive error count reached the configured limit. -/
def should_recreate (cfg : PoolConfig) (ctx : ContextInstance) : Bool :=
  ctx.consecutive_errors ≥ cfg.max_consecutive_errors

/-! ## Context registry operations (context_pool.py) -/

/-- ContextPool.create_context: requires the pool started; builds the tag set
adding the auto proxy tag, inserts the fresh instance at the end of the dict.
The fresh uuid and the wall clock arrive as `newId` and `now`; driver calls
(new_context, new_page, CDP lookup) touch no pool state. Python's
`set(tags) if tags else set()` is `tags.getD ∅`. -/
def create_context (p : PoolState) (newId : String) (proxy : Option String)
    (persistent : Bool) (tags : Option (Finset String)) (now : Int) :
    Except PoolError (PoolState × ContextInstance) :=
  if ¬ p.started then .error .poolNotStarted
  else
    let context_tags : Finset String :=
      match proxy with
      | some pr => insert ("proxy:" ++ pr) (tags.getD ∅)
      | none => tags.getD ∅
    let inst : ContextInstance :=
      { id := newId
        proxy := proxy
        persistent := persistent
        tags := context_tags
        in_use := false
        created_at := now
        last_used_at := none
        total_requests := 0
        error_count := 0
        consecutive_errors := 0
        domain_last_request := [] }
    .ok ({ p with contexts := p.contexts ++ [inst] }, inst)

/-- Lookup a context by id (`self._contexts.get(context_id)` /
`context_id in self._contexts`). -/
def get_context (p : PoolState) (id : String) : Option ContextInstance :=
  p.contexts.find? (fun c => c.id = id)

/-- ContextPool.acquire_context: NotFound when absent, NotAvailable when
already in use, else mark in_use. -/
def acquire_context (p : PoolState) (id : String) :
    Except PoolError (PoolState × ContextInstance) :=
  match get_context p id with
  | none => .error (.contextNotFound id)
  | some inst =>
    if inst.in_use then .error .contextNotAvailable
    else
      .ok ({ p with contexts :=
              p.contexts.map (fun c => if c.id = id then { c with in_use := true } else c) },
           { inst with in_use := true })

/-- ContextPool.release_context: no-op when the id is absent; otherwise clear
in_use. The persistent storage snapshot is disk I/O with errors swallowed and
touches no pool state. -/
def release_context (p : PoolState) (id : String) : PoolState :=
  if (get_context p id).isSome then
    { p with contexts :=
        p.contexts.map (fun c => if c.id = id then { c with in_use := false } else c) }
  else p

/-- Deletion of one dict entry by context id (`del self._contexts[id]`). -/
def remove_by_id : List ContextInstance → String → List ContextInstance
  | [], _ => []
  | c :: cs, id => if c.id = id then cs else c :: remove_by_id cs id

/-- ContextPool.remove_context: false when absent, InUse error when acquired,
else delete the entry (before any driver await) and report true. -/
def remove_context (p : PoolState) (id : String) :
    Except PoolError (Bool × PoolState) :=
  match get_context p id with
  | none => .ok (false, p)
  | some inst =>
    if inst.in_use then .error .contextInUse
    else .ok (true, { p with contexts := remove_by_id p.contexts id })

/-- ContextPool.add_tags: tag-set union on the addressed context; false when
the id is absent. -/
def add_tags (p : PoolState) (id : String) (tags : Finset String) :
    Bool × PoolState :=
  match get_context p id with
  | none => (false, p)
  | some _ =>
    (true, { p with contexts :=
        p.contexts.map (fun c => if c.id = id then { c with tags := c.tags ∪ tags } else c) })

/-- ContextPool.remove_tags: tag-set difference on the addressed context;
false when the id is absent. -/
def remove_tags (p : PoolState) (id : String) (tags : Finset String) :
    Bool × PoolState :=
  match get_context p id with
  | none => (false, p)
  | some _ =>
    (true, { p with contexts :=
        p.contexts.map (fun c => if c.id = id then { c with tags := c.tags \ tags } else c) })

/-! ## Context selection (ContextPool.select_context) -/

/-- The health score computed inside select_context: consecutive errors
weighted 10, error rate (0 when no requests yet) weighted 5. -/
def health_score (ctx : ContextInstance) : ℚ :=
  let error_rate : ℚ :=
    if ctx.total_requests > 0 then (ctx.error_count : ℚ) / (ctx.total_requests : ℚ)
    else 0
  (ctx.consecutive_errors : ℚ) * 10 + error_rate * 5

/-- Modelled from the spec: `health_score(ctx) = 10·consecutive_errors +
5·(error_count / max(total_requests, 1))`. Used only to compare the spec's
formula against the code's. -/
def spec_health_score (ctx : ContextInstance) : ℚ :=
  10 * (ctx.consecutive_errors : ℚ)
    + 5 * ((ctx.error_count : ℚ) / (max ctx.total_requests 1 : ℕ))

/-- The candidate filter of select_context: not in use, carries all required
tags, and (when a domain is supplied) passes the rate limiter. -/
def is_candidate (ctx : ContextInstance) (tags : Option (Finset String))
    (domain : Option String) (domain_delay_ms : Option Int)
    (default_delay : Int) (now : Int) : Bool :=
  ¬ ctx.in_use
    && (tags.getD ∅) ⊆ ctx.tags
    && (match domain with
        | none => true
        | some d => can_request ctx d domain_delay_ms default_delay now)

/-- The result of Python's stable ascending sort by health score followed by
`candidates[0]`: the first candidate attaining the minimal score. -/
def selectBest (c : ContextInstance) (cs : List ContextInstance) :
    ContextInstance :=
  cs.foldl (fun best x => if health_score x < health_score best then x else best) c

/-- ContextPool.select_context: filter to candidates in dict order, `none`
when empty, else the first candidate of minimal health score. -/
def select_context (p : PoolState) (tags : Option (Finset String))
    (domain : Option String) (domain_delay_ms : Option Int)
    (default_delay : Int) (now : Int) : Option ContextInstance :=
  match p.contexts.filter
      (fun ctx => is_candidate ctx tags domain domain_delay_ms default_delay now) with
  | [] => none
  | c :: cs => some (selectBest c cs)

/-! ## Eviction entry point (ContextPool.evict_and_replace) -/

/-- ContextPool.evict_and_replace, with its pool states at every suspension
point made explicit. The first component lists the states another coroutine
can observe while this one awaits driver I/O (the state is unchanged during
create_context's awaits, and already shrunk during remove_context's close
await); then come the final state and the created context, `none` when no
context could be evicted. -/
def evict_and_replace (cfg : PoolConfig) (p : PoolState) (newId : String)
    (tags : Option (Finset String)) (proxy : Option String) (now : Int) :
    Except PoolError (List PoolState × PoolState × Option ContextInstance) :=
  if p.size < cfg.max_contexts then
    match create_context p newId proxy false tags now with
    | .error e => .error e
    | .ok (q, ctx) => .ok ([p], q, some ctx)
  else
    match find_eviction_candidate cfg p.contexts none now with
    | none => .ok ([p], p, none)
    | some candidate =>
      match remove_context p candidate.id with
      | .error e => .error e
      | .ok (_, p') =>
        match create_context p' newId proxy false tags now with
        | .error e => .error e
        | .ok (q, ctx) => .ok ([p, p'], q, some ctx)

/-! ## Request queue (request_queue.py) -/

/-- QueuedRequest: the asyncio future becomes `slot` — `none` while pending
(`not future.done()`), `some (.ok ctxId)` after set_result, `some (.error e)`
after set_exception. -/
structure QueuedRequest where
  id : String
  tags : Finset String := ∅
  domain : String := ""
  domain_delay_ms : Option Int := none
  created_at : Int := 0
  slot : Option (Except String String) := none
  deriving DecidableEq

/-- QueuedRequest.is_expired: elapsed wait reached max_queue_wait. -/
def is_expired (max_queue_wait : Int) (req : QueuedRequest) (now : Int) : Bool :=
  now - req.created_at ≥ max_queue_wait

/-- Shared body of RequestQueue.resolve and RequestQueue.reject: walk the
queue, fill the slot of the first pending entry with the given id, report
whether one was filled. -/
def settleSlot (rid : String) (v : Except String String) :
    List QueuedRequest → Bool × List QueuedRequest
  | [] => (false, [])
  | r :: rs =>
    if r.id = rid ∧ r.slot = none then (true, { r with slot := some v } :: rs)
    else
      let (b, rs') := settleSlot rid v rs
      (b, r :: rs')

/-- RequestQueue.resolve: set_result on the first pending matching entry. -/
def resolve (q : List QueuedRequest) (rid : String) (ctxId : String) :
    Bool × List QueuedRequest :=
  settleSlot rid (.ok ctxId) q

/-- RequestQueue.reject: set_exception on the first pending matching entry. -/
def reject (q : List QueuedRequest) (rid : String) (err : String) :
    Bool × List QueuedRequest :=
  settleSlot rid (.error err) q

/-- The timeout failure cleanup_expired sets on an expired request. -/
def timeoutError : Except String String := .error "Request timed out"

/-- RequestQueue.cleanup_expired: every entry that is expired and still
pending is rejected with a timeout failure and dropped; everything else stays
in order. Returns (count, remaining queue, rejected entries with their slot
filled). -/
def cleanup_expired (max_queue_wait : Int) (now : Int) :
    List QueuedRequest → Nat × List QueuedRequest × List QueuedRequest
  | [] => (0, [], [])
  | r :: rs =>
    let (n, rem, rej) := cleanup_expired max_queue_wait now rs
    if is_expired max_queue_wait r now ∧ r.slot = none then
      (n + 1, rem, { r with slot := some timeoutError } :: rej)
    else
      (n, r :: rem, rej)

/-! ## Scrape execution (api/scrape.py, _execute_scrape) -/

/-- Outcome of each driver call a scrape can make, configured ahead of the
run (the mock-driver view of navigate / content / evaluate / screenshot). -/
structure DriverOutcome where
  nav : Except String (Option Nat × String)
  content : Except String String
  script : Except String String
  screenshot : Except String String
  deriving DecidableEq

/-- The fields of ScrapeRequest consulted by _execute_scrape. -/
structure ScrapeBody where
  url : String
  get_content : Bool := true
  script : Option String := none
  screenshot : Bool := false
  deriving DecidableEq

/-- ScrapeResponse as _execute_scrape builds it. -/
structure ScrapeResponse where
  success : Bool
  url : String
  status : Option Nat := none
  content : Option String := none
  script_result : Option String := none
  screenshot : Option String := none
  context_id : String
  queue_wait_ms : Nat := 0
  error : Option String := none
  deriving DecidableEq

/-- The _execute_scrape coroutine: record_request, navigate, optional
content, optional script (whose failure is caught locally: script_result
stays none and execution continues), optional screenshot, then
record_success; any uncaught driver exception lands in the outer handler
which calls record_error and builds the failure response. Returns the
response together with the context as the run leaves it. -/
def execute_scrape (ctx : ContextInstance) (body : ScrapeBody)
    (oracle : DriverOutcome) (domain : String) (now : Int) :
    ScrapeResponse × ContextInstance :=
  let ctx1 := record_request ctx domain now
  let fail : String → ScrapeResponse × ContextInstance := fun e =>
    ({ success := false, url := body.url, status := none, content := none,
       script_result := none, screenshot := none, context_id := ctx1.id,
       queue_wait_ms := 0, error := some e },
     record_error ctx1)
  match oracle.nav with
  | .error e => fail e
  | .ok (status_code, final_url) =>
    let contentStep : Except String (Option String) :=
      if body.get_content then (oracle.content).map some else .ok none
    match contentStep with
    | .error e => fail e
    | .ok content =>
      let script_result : Option String :=
        match body.script with
        | none => none
        | some _ =>
          match oracle.script with
          | .ok v => some v
          | .error _ => none
      let screenshotStep : Except String (Option String) :=
        if body.screenshot then (oracle.screenshot).map some else .ok none
      match screenshotStep with
      | .error e => fail e
      | .ok shot =>
        ({ success := true, url := final_url, status := status_code,
           content := content, script_result := script_result,
           screenshot := shot, context_id := ctx1.id, queue_wait_ms := 0,
           error := none },
         record_success ctx1)

/-! ## Fixtures for counterexamples and witnesses -/

/-- A context fresh from creation: all counters zero. -/
def freshCtx : ContextInstance := { id := "c" }

/-- A one-context pool used by the tag theorems. -/
def tagPool : PoolState :=
  { contexts := [{ id := "c1", tags := {"a"} }], started := true }

/-- A one-context pool whose context wears a proxy and its auto tag. -/
def proxyPool : PoolState :=
  { contexts := [{ id := "c1", proxy := some "http://p", tags := {"proxy:http://p"} }]
    started := true }

/-! ## C5: counter monotonicity -/

/-- The claimed counter invariant of one context. -/
def countersOk (c : ContextInstance) : Prop :=
  c.consecutive_errors ≤ c.error_count ∧ c.error_count ≤ c.total_requests

/-- Sequences in which every error call happens with strictly more recorded
requests than recorded errors — the discipline _execute_scrape follows by
calling record_request before anything can fail. Arguments carry the running
error_count and total_requests. -/
def errorBalanced (ec tr : Nat) : List RecordOp → Bool
  | [] => true
  | op :: ops =>
    match op with
    | .request _ _ => errorBalanced ec (tr + 1) ops
    | .error => decide (ec < tr) && errorBalanced (ec + 1) tr ops
    | .success => errorBalanced ec tr ops

/-- Claim C5 as stated is false: a single record_error on a fresh context
(all counters zero) leaves error_count = 1 above total_requests = 0, so
consecutive_errors ≤ error_count ≤ total_requests fails after the very first
operation of a legal sequence. -/
theorem C5_counterexample :
    (runRecords freshCtx [.error]).error_count = 1 ∧
    (runRecords freshCtx [.error]).total_requests = 0 ∧
    ¬ ((runRecords freshCtx [.error]).error_count ≤
        (runRecords freshCtx [.error]).total_requests) := by
  refine ⟨rfl, rfl, ?_⟩
  decide

/-- Claim C5 amended: consecutive_errors ≤ error_count is maintained by every
sequence (unconditionally), record_success always zeroes consecutive_errors,
and the full chain consecutive_errors ≤ error_count ≤ total_requests is
maintained at every point of any sequence in which each record_error happens
with error_count still below total_requests (the coordinator's
record_request-first discipline). -/
theorem C5_counters (ctx : ContextInstance) (ops : List RecordOp)
    (hce : ctx.consecutive_errors ≤ ctx.error_count) :
    (∀ n, (runRecords ctx (ops.take n)).consecutive_errors
        ≤ (runRecords ctx (ops.take n)).error_count) ∧
    (∀ pre, (runRecords ctx (pre ++ [.success])).consecutive_errors = 0) ∧
    (ctx.error_count ≤ ctx.total_requests →
      errorBalanced ctx.error_count ctx.total_requests ops = true →
      ∀ n, countersOk (runRecords ctx (ops.take n))) := by
  refine ⟨?_, ?_, ?_⟩
  · intro n
    induction ops generalizing ctx n with
    | nil => simpa [runRecords] using hce
    | cons op rest ih =>
      cases n with
      | zero => simpa [runRecords] using hce
      | succ m =>
        have step : runRecords ctx ((op :: rest).take (m + 1)) =
            runRecords (applyRecord ctx op) (rest.take m) := by
          simp [runRecords]
        rw [step]
        cases op with
        | request d t => exact ih (record_request ctx d t) hce m
        | error => exact ih (record_error ctx) (Nat.succ_le_succ hce) m
        | success => exact ih (record_success ctx) (Nat.zero_le _) m
  · intro pre
    have : runRecords ctx (pre ++ [.success]) =
        record_success (runRecords ctx pre) := by
      simp [runRecords, List.foldl_append, applyRecord]
    rw [this]
    rfl
  · intro hec hbal n
    have h0 : countersOk ctx := ⟨hce, hec⟩
    clear hce hec
    revert hbal h0
    induction ops generalizing ctx n with
    | nil =>
      intro hbal h0
      simpa [runRecords] using h0
    | cons op rest ih =>
      intro hbal h0
      cases n with
      | zero => simpa [runRecords] using h0
      | succ m =>
        have step : runRecords ctx ((op :: rest).take (m + 1)) =
            runRecords (applyRecord ctx op) (rest.take m) := by
          simp [runRecords]
        rw [step]
        cases op with
        | request d t =>
          exact ih (record_request ctx d t) m
            (by simpa [errorBalanced] using hbal)
            ⟨h0.1, Nat.le_succ_of_le h0.2⟩
        | error =>
          have hb : ctx.error_count < ctx.total_requests ∧
              errorBalanced (ctx.error_count + 1) ctx.total_requests rest = true := by
            simpa [errorBalanced] using hbal
          exact ih (record_error ctx) m hb.2
            ⟨Nat.succ_le_succ h0.1, hb.1⟩
        | success =>
          exact ih (record_success ctx) m
            (by simpa [errorBalanced] using hbal)
            ⟨Nat.zero_le _, h0.2⟩

/-- Witness for C5_counters: the unconditional clause at an unbalanced
one-error sequence, and the full chain at a balanced sequence. -/
theorem C5_counters_witness :
    (runRecords freshCtx ([RecordOp.error].take 1)).consecutive_errors
        ≤ (runRecords freshCtx ([RecordOp.error].take 1)).error_count ∧
    countersOk (runRecords freshCtx
      ([RecordOp.request "d" 0, .error, .success].take 3)) :=
  ⟨(C5_counters freshCtx [RecordOp.error] (Nat.le_refl 0)).1 1,
   (C5_counters freshCtx [RecordOp.request "d" 0, .error, .success]
      (Nat.le_refl 0)).2.2 (Nat.le_refl 0) (by decide) 3⟩

/-! ## C6: add_tags / remove_tags round trip -/

/-- Claim C6 as stated is false: when the added set already meets the tag
set, the pair add_tags; remove_tags erases the shared tag instead of
restoring the original set. -/
theorem C6_counterexample :
    (remove_tags (add_tags tagPool "c1" {"a"}).2 "c1" {"a"}).2 ≠ tagPool := by
  decide

/-- Helper: find?-by-id commutes with mapping an id-preserving function over
the context list. -/
theorem find?_map_id_pres (l : List ContextInstance)
    (f : ContextInstance → ContextInstance) (hf : ∀ c, (f c).id = c.id)
    (id : String) :
    (l.map f).find? (fun c => c.id = id) =
      (l.find? (fun c => c.id = id)).map f := by
  induction l with
  | nil => rfl
  | cons c cs ih =>
    by_cases hc : c.id = id
    · simp [List.find?, hf c, hc]
    · simp [List.find?, hf c, hc, ih]

/-- Helper: the tag-updating map used by add_tags and remove_tags preserves
ids. -/
theorem tagUpdate_id (id : String) (g : Finset String → Finset String)
    (c : ContextInstance) :
    (if c.id = id then { c with tags := g c.tags } else c).id = c.id := by
  by_cases hc : c.id = id <;> simp [hc]

/-- Claim C6 amended: add_tags(c, T); remove_tags(c, T) restores the pool
exactly whenever T is disjoint from the addressed context's tag set (in
general the pair leaves that tag set at tags \ T). -/
theorem C6_add_remove_tags (p : PoolState) (id : String) (T : Finset String)
    (h : ∀ c ∈ p.contexts, c.id = id → c.tags ∩ T = ∅) :
    (remove_tags (add_tags p id T).2 id T).2 = p := by
  unfold add_tags remove_tags get_context
  cases hfind : p.contexts.find? (fun c => c.id = id) with
  | none =>
    simp only [hfind]
  | some inst =>
    simp only [hfind]
    rw [find?_map_id_pres p.contexts _ (tagUpdate_id id (· ∪ T)) id, hfind]
    have hpt : ∀ c ∈ p.contexts,
        ((fun c => if c.id = id then { c with tags := c.tags \ T } else c) ∘
         (fun c => if c.id = id then { c with tags := c.tags ∪ T } else c)) c =
        (fun c => c) c := by
      intro c hc
      by_cases hcid : c.id = id
      · simp only [Function.comp_apply, hcid, if_pos]
        rw [Finset.union_sdiff_right]
        have hdT : c.tags \ T = c.tags := by
          rw [Finset.sdiff_eq_self_iff_disjoint, Finset.disjoint_iff_inter_eq_empty]
          exact h c hc hcid
        rw [hdT, ← hcid]
      · simp [Function.comp_apply, hcid]
    simp only [Option.map_some', List.map_map, List.map_congr_left hpt,
      List.map_id']

/-- Witness for C6_add_remove_tags: a disjoint tag set round-trips. -/
theorem C6_add_remove_tags_witness :
    (remove_tags (add_tags tagPool "c1" {"b"}).2 "c1" {"b"}).2 = tagPool :=
  C6_add_remove_tags tagPool "c1" {"b"} (by decide)

/-! ## C2: proxy auto-tag invariant -/

/-- The proxy-tag invariant of one context: whenever the proxy field is set,
its auto tag is in the tag set. -/
def proxyTagOk (c : ContextInstance) : Prop :=
  ∀ pr, c.proxy = some pr → ("proxy:" ++ pr) ∈ c.tags

/-- Claim C2 as stated is false: remove_tags strips the proxy auto tag like
any other tag (and the external tag-patch surface passes removals straight
through), leaving a context whose proxy is set but whose tag set no longer
holds "proxy:<proxy>". -/
theorem C2_counterexample :
    ∃ c ∈ ((remove_tags proxyPool "c1" {"proxy:http://p"}).2).contexts,
      c.proxy = some "http://p" ∧ ("proxy:" ++ "http://p") ∉ c.tags := by
  decide

/-- Claim C2 amended: create_context establishes the proxy auto tag and
add_tags preserves the invariant on every context; remove_tags preserves it
provided the removed set does not contain the addressed context's own proxy
tag. -/
theorem C2_proxy_tag (p : PoolState) :
    (∀ id proxy persistent tags now q ctx,
       create_context p id proxy persistent tags now = .ok (q, ctx) →
       (∀ c ∈ p.contexts, proxyTagOk c) → ∀ c ∈ q.contexts, proxyTagOk c) ∧
    (∀ id T, (∀ c ∈ p.contexts, proxyTagOk c) →
       ∀ c ∈ ((add_tags p id T).2).contexts, proxyTagOk c) ∧
    (∀ id T, (∀ c ∈ p.contexts, proxyTagOk c) →
       (∀ c ∈ p.contexts, c.id = id →
          ∀ pr, c.proxy = some pr → ("proxy:" ++ pr) ∉ T) →
       ∀ c ∈ ((remove_tags p id T).2).contexts, proxyTagOk c) := by
  refine ⟨?_, ?_, ?_⟩
  · intro id proxy persistent tags now q ctx hok hall c hc
    unfold create_context at hok
    by_cases hs : p.started
    · simp only [hs, not_true, if_neg, reduceIte] at hok
      obtain ⟨hq, -⟩ := Prod.mk.injEq .. ▸ Except.ok.injEq .. ▸ hok
      rw [← hq] at hc
      simp only [List.mem_append, List.mem_singleton] at hc
      rcases hc with hc | hc
      · exact hall c hc
      · intro pr hpr
        subst hc
        cases hproxy : proxy with
        | none => simp [hproxy] at hpr
        | some pr0 =>
          simp only [hproxy] at hpr ⊢
          cases hpr
          exact Finset.mem_insert_self _ _
    · simp [hs] at hok
  · intro id T hall c hc
    unfold add_tags at hc
    cases hfind : get_context p id with
    | none => rw [hfind] at hc; exact hall c hc
    | some inst =>
      rw [hfind] at hc
      simp only [List.mem_map] at hc
      obtain ⟨c0, hc0, hmap⟩ := hc
      by_cases hcid : c0.id = id
      · simp only [hcid, if_pos] at hmap
        subst hmap
        intro pr hpr
        exact Finset.mem_union_left _ (hall c0 hc0 pr hpr)
      · simp only [hcid, if_neg, reduceIte] at hmap
        subst hmap
        exact hall c0 hc0
  · intro id T hall hkeep c hc
    unfold remove_tags at hc
    cases hfind : get_context p id with
    | none => rw [hfind] at hc; exact hall c hc
    | some inst =>
      rw [hfind] at hc
      simp only [List.mem_map] at hc
      obtain ⟨c0, hc0, hmap⟩ := hc
      by_cases hcid : c0.id = id
      · simp only [hcid, if_pos] at hmap
        subst hmap
        intro pr hpr
        refine Finset.mem_sdiff.mpr ⟨hall c0 hc0 pr hpr, ?_⟩
        exact hkeep c0 hc0 hcid pr hpr
      · simp only [hcid, if_neg, reduceIte] at hmap
        subst hmap
        exact hall c0 hc0

/-- Witness for C2_proxy_tag: removing an unrelated tag keeps the proxy auto
tag on the concrete proxy pool. -/
theorem C2_proxy_tag_witness :
    ∀ c ∈ ((remove_tags proxyPool "c1" {"other"}).2).contexts, proxyTagOk c :=
  (C2_proxy_tag proxyPool).2.2 "c1" {"other"}
    (by
      intro c hc pr hpr
      simp only [proxyPool, List.mem_singleton] at hc
      subst hc
      cases hpr
      decide)
    (by
      intro c hc hcid pr hpr
      simp only [proxyPool, List.mem_singleton] at hc
      subst hc
      cases hpr
      decide)

/-! ## C4: script failure handling in _execute_scrape -/

/-- A scrape request that navigates only and evaluates a script. -/
def scriptBody : ScrapeBody :=
  { url := "https://example.com/", get_content := false,
    script := some "document.title", screenshot := false }

/-- A driver run where navigation succeeds and script evaluation throws. -/
def scriptFailOracle : DriverOutcome :=
  { nav := .ok (some 200, "https://example.com/"),
    content := .ok "", script := .error "boom", screenshot := .ok "" }

/-- Claim C4 as stated is false: when script evaluation fails the code only
logs — record_error is never called, so the acting context's error counters
are not incremented (error_count is unchanged and record_success then zeroes
consecutive_errors); script_result is null and the scrape stays successful,
as the claim's other conjuncts say. -/
theorem C4_counterexample :
    (execute_scrape freshCtx scriptBody scriptFailOracle "example.com" 5).1.success
        = true ∧
    (execute_scrape freshCtx scriptBody scriptFailOracle "example.com" 5).1.script_result
        = none ∧
    (execute_scrape freshCtx scriptBody scriptFailOracle "example.com" 5).2.error_count
        = freshCtx.error_count ∧
    ¬ (execute_scrape freshCtx scriptBody scriptFailOracle "example.com" 5).2.error_count
        > freshCtx.error_count := by
  refine ⟨rfl, rfl, rfl, ?_⟩
  decide

/-- Claim C4 amended: whenever driver script evaluation fails during the
DRIVE phase (navigation succeeded, and the other requested driver calls
succeed), script_result is null and the scrape is not failed, but the error
is NOT recorded against the acting context: error_count is unchanged,
consecutive_errors ends at zero via record_success, and only total_requests
grew by the record_request at entry. -/
theorem C4_script_failure (ctx : ContextInstance) (body : ScrapeBody)
    (oracle : DriverOutcome) (domain : String) (now : Int) (s e : String)
    (hs : body.script = some s) (hscript : oracle.script = .error e)
    (hnav : ∃ r, oracle.nav = .ok r)
    (hcontent : body.get_content = true → ∃ v, oracle.content = .ok v)
    (hshot : body.screenshot = true → ∃ v, oracle.screenshot = .ok v) :
    (execute_scrape ctx body oracle domain now).1.success = true ∧
    (execute_scrape ctx body oracle domain now).1.script_result = none ∧
    (execute_scrape ctx body oracle domain now).2.error_count = ctx.error_count ∧
    (execute_scrape ctx body oracle domain now).2.consecutive_errors = 0 ∧
    (execute_scrape ctx body oracle domain now).2.total_requests
      = ctx.total_requests + 1 := by
  obtain ⟨⟨st, fu⟩, hnav⟩ := hnav
  unfold execute_scrape
  rw [hnav]
  have hcontentStep :
      (if body.get_content then (oracle.content).map some else .ok none)
        = .ok (if body.get_content then (oracle.content).toOption else none) := by
    by_cases hgc : body.get_content
    · obtain ⟨v, hv⟩ := hcontent hgc
      simp [hgc, hv, Except.toOption, Except.map]
    · simp [hgc]
  have hshotStep :
      (if body.screenshot then (oracle.screenshot).map some else .ok none)
        = .ok (if body.screenshot then (oracle.screenshot).toOption else none) := by
    by_cases hsc : body.screenshot
    · obtain ⟨v, hv⟩ := hshot hsc
      simp [hsc, hv, Except.toOption, Except.map]
    · simp [hsc]
  rw [hcontentStep, hshotStep]
  simp [hs, hscript, record_request, record_success]

/-- Witness for C4_script_failure at the concrete fixture. -/
theorem C4_script_failure_witness :
    (execute_scrape freshCtx scriptBody scriptFailOracle "example.com" 5).1.success
      = true ∧
    (execute_scrape freshCtx scriptBody scriptFailOracle "example.com" 5).2.consecutive_errors
      = 0 :=
  have h := C4_script_failure freshCtx scriptBody scriptFailOracle "example.com" 5
    "document.title" "boom" rfl rfl ⟨(some 200, "https://example.com/"), rfl⟩
    (by intro h; exact absurd h (by decide)) (by intro h; exact absurd h (by decide))
  ⟨h.1, h.2.2.2.1⟩

/-! ## C10: release_context never raises and only clears in_use -/

/-- Claim C10: release_context is total (the model returns a plain PoolState,
mirroring that the code swallows its only fallible step); an absent id leaves
the pool untouched; for a present non-persistent context the whole effect on
the pool is the pointwise map clearing in_use on the addressed context (every
other field and every other context kept verbatim). -/
theorem C10_release_context (p : PoolState) (id : String) :
    (get_context p id = none → release_context p id = p) ∧
    (∀ c, get_context p id = some c → c.persistent = false →
      (release_context p id).started = p.started ∧
      (release_context p id).contexts =
        p.contexts.map
          (fun c' => if c'.id = id then { c' with in_use := false } else c') ∧
      (∀ c' ∈ p.contexts, c'.id ≠ id →
        c' ∈ (release_context p id).contexts)) := by
  constructor
  · intro hnone
    unfold release_context
    rw [hnone]
    rfl
  · intro c hsome hpers
    have hred : release_context p id =
        { p with contexts := (p.contexts.map
            (fun c' => if c'.id = id then { c' with in_use := false } else c')) } := by
      unfold release_context
      rw [hsome]
      rfl
    rw [hred]
    exact ⟨rfl, rfl, fun c' hc' hne =>
      List.mem_map.mpr ⟨c', hc', by simp [hne]⟩⟩

/-- Witness for C10_release_context: the absent-id branch on a concrete
pool, and the present branch on its single context. -/
theorem C10_release_context_witness :
    release_context tagPool "missing" = tagPool ∧
    (release_context tagPool "c1").contexts =
      tagPool.contexts.map
        (fun c' => if c'.id = "c1" then { c' with in_use := false } else c') :=
  ⟨(C10_release_context tagPool "missing").1 (by decide),
   ((C10_release_context tagPool "c1").2 { id := "c1", tags := {"a"} }
      (by decide) rfl).2.1⟩

/-! ## C7: extract_domain -/

/-- Helper: splitting at the first colon of `pre ++ ':' :: post` recovers the
two parts when `pre` is colon-free. -/
theorem splitOnColon_append (pre post : List Char) (h : ':' ∉ pre) :
    splitOnColon (pre ++ ':' :: post) = some (pre, post) := by
  induction pre with
  | nil => simp [splitOnColon]
  | cons c cs ih =>
    have hc : ¬ c = ':' := fun hcc => h (hcc ▸ List.mem_cons_self c cs)
    have hcs : ':' ∉ cs := fun hm => h (List.mem_cons_of_mem c hm)
    simp only [List.cons_append, splitOnColon, hc, reduceIte, List.append_eq, ih hcs]

/-- Helper: takeUntil keeps a stop-free head up to the first stop. -/
theorem takeUntil_append (stops : List Char) (xs : List Char)
    (h : ∀ c ∈ xs, ¬ stops.contains c) (y : Char) (ys : List Char)
    (hy : stops.contains y) :
    takeUntil stops (xs ++ y :: ys) = xs := by
  induction xs with
  | nil => simp only [List.nil_append, takeUntil, hy, reduceIte]
  | cons c cs ih =>
    have hc := h c (List.mem_cons_self c cs)
    simp only [List.cons_append, takeUntil, hc, reduceIte, List.append_eq]
    rw [ih (fun a ha => h a (List.mem_cons_of_mem c ha))]
    simp

/-- Claim C7 as stated is false: extract_domain returns the authority with
its original case — Python's urlparse never lowercases the netloc — so an
upper-case host comes back upper-case, not as the lowercased authority the
spec promises. -/
theorem C7_counterexample :
    extract_domain "https://EXAMPLE.com/x" = "EXAMPLE.com" ∧
    spec_extract_domain "https://EXAMPLE.com/x" = "example.com" ∧
    extract_domain "https://EXAMPLE.com/x"
      ≠ spec_extract_domain "https://EXAMPLE.com/x" := by
  refine ⟨by decide, by decide, by decide⟩

/-- Claim C7 amended: for a URL with a valid scheme and an authority,
extract_domain returns the authority verbatim (case preserved, port kept,
since `:` is not a stop character). -/
theorem C7_extract_domain (c : Char) (cs host path : List Char)
    (hAlpha : c.isAlpha = true)
    (hScheme : (c :: cs).all isSchemeChar = true)
    (hHost : host ≠ [])
    (hHostChars : ∀ ch ∈ host, ¬ (['/', '?', '#'] : List Char).contains ch) :
    extract_domain ⟨c :: cs ++ ':' :: '/' :: '/' :: host ++ '/' :: path⟩
      = ⟨host⟩ := by
  have hNoColon : ':' ∉ c :: cs := by
    intro hmem
    have := List.all_eq_true.mp hScheme ':' hmem
    simp [isSchemeChar] at this
  have hrest : takeUntil ['/', '?', '#'] (host ++ '/' :: path) = host :=
    takeUntil_append _ _ hHostChars '/' path (by decide)
  have hafter : afterScheme (c :: cs ++ ':' :: '/' :: '/' :: host ++ '/' :: path)
      = '/' :: '/' :: (host ++ '/' :: path) := by
    unfold afterScheme
    rw [show (c :: cs ++ ':' :: '/' :: '/' :: host ++ '/' :: path)
          = ((c :: cs) ++ ':' :: ('/' :: '/' :: (host ++ '/' :: path))) by simp]
    rw [splitOnColon_append _ _ hNoColon]
    simp [hAlpha, hScheme]
  have hne : host.isEmpty = false := by
    cases host with
    | nil => exact absurd rfl hHost
    | cons a as => rfl
  unfold extract_domain
  rw [show (⟨c :: cs ++ ':' :: '/' :: '/' :: host ++ '/' :: path⟩ : String).data
        = (c :: cs ++ ':' :: '/' :: '/' :: host ++ '/' :: path) from rfl]
  rw [hafter]
  show (if (takeUntil ['/', '?', '#'] (host ++ '/' :: path)).isEmpty = true
      then (⟨takeUntil ['/', '?', '#'] ((host ++ '/' :: path).drop
        (takeUntil ['/', '?', '#'] (host ++ '/' :: path)).length)⟩ : String)
      else ⟨takeUntil ['/', '?', '#'] (host ++ '/' :: path)⟩) = ⟨host⟩
  rw [hrest, hne]
  rfl

/-- Witness for C7_extract_domain: a host with upper-case letters and a port
is returned verbatim. -/
theorem C7_extract_domain_witness :
    extract_domain ⟨'h' :: "ttps".data ++ ':' :: '/' :: '/'
        :: "EXAMPLE.com:8080".data ++ '/' :: "x".data⟩
      = ⟨"EXAMPLE.com:8080".data⟩ :=
  C7_extract_domain 'h' "ttps".data "EXAMPLE.com:8080".data "x".data
    (by decide) (by decide) (by decide) (by decide)

/-! ## C3: select_context -/

/-- Helper: the best-so-far fold returns one of its inputs. -/
theorem selectBest_mem (c : ContextInstance) (cs : List ContextInstance) :
    selectBest c cs ∈ c :: cs := by
  induction cs generalizing c with
  | nil => exact List.mem_singleton.mpr rfl
  | cons x xs ih =>
    unfold selectBest
    simp only [List.foldl_cons]
    by_cases hx : health_score x < health_score c
    · simp only [hx, if_pos, reduceIte]
      have := ih x
      simp only [List.mem_cons] at this ⊢
      tauto
    · simp only [hx, reduceIte]
      have := ih c
      simp only [List.mem_cons] at this ⊢
      tauto

/-- Helper: the best-so-far fold attains the minimal health score among its
inputs. -/
theorem selectBest_min (c : ContextInstance) (cs : List ContextInstance) :
    health_score (selectBest c cs) ≤ health_score c ∧
    ∀ x ∈ cs, health_score (selectBest c cs) ≤ health_score x := by
  induction cs generalizing c with
  | nil => exact ⟨le_refl _, by simp⟩
  | cons x xs ih =>
    unfold selectBest
    simp only [List.foldl_cons]
    by_cases hx : health_score x < health_score c
    · simp only [hx, reduceIte]
      obtain ⟨h1, h2⟩ := ih x
      refine ⟨le_trans h1 (le_of_lt hx), ?_⟩
      intro y hy
      rcases List.mem_cons.mp hy with rfl | hy
      · exact h1
      · exact h2 y hy
    · simp only [hx, reduceIte]
      obtain ⟨h1, h2⟩ := ih c
      refine ⟨h1, ?_⟩
      intro y hy
      rcases List.mem_cons.mp hy with rfl | hy
      · exact le_trans h1 (not_lt.mp hx)
      · exact h2 y hy

/-- Helper: on any context satisfying the counter invariant
error_count ≤ total_requests, the code's health score equals the spec's
formula 10·consecutive_errors + 5·(error_count / max(total_requests, 1)). -/
theorem health_score_eq_spec (ctx : ContextInstance)
    (h : ctx.error_count ≤ ctx.total_requests) :
    health_score ctx = spec_health_score ctx := by
  unfold health_score spec_health_score
  by_cases htr : ctx.total_requests > 0
  · have hmax : max ctx.total_requests 1 = ctx.total_requests :=
      max_eq_left htr
    rw [hmax]
    simp only [htr, if_pos, reduceIte]
    ring
  · have htr0 : ctx.total_requests = 0 := Nat.eq_zero_of_not_pos htr
    have hec0 : ctx.error_count = 0 := Nat.le_zero.mp (htr0 ▸ h)
    simp [htr, htr0, hec0]
    ring

/-- Claim C3: select_context returns none exactly when no context is
simultaneously available, fully tagged and rate-limit-clear; otherwise it
returns such a candidate minimizing the spec's health-score formula (the
code's stable sort makes the tie-break the first such context in dict
order); in particular every tag-matching available context failing the
rate-limit check forces none. -/
theorem C3_select_context (p : PoolState) (tags : Option (Finset String))
    (domain : Option String) (domain_delay_ms : Option Int)
    (default_delay : Int) (now : Int)
    (hreach : ∀ ctx ∈ p.contexts, ctx.error_count ≤ ctx.total_requests) :
    (select_context p tags domain domain_delay_ms default_delay now = none ↔
      ∀ ctx ∈ p.contexts,
        is_candidate ctx tags domain domain_delay_ms default_delay now = false) ∧
    (∀ c, select_context p tags domain domain_delay_ms default_delay now = some c →
      c ∈ p.contexts ∧
      is_candidate c tags domain domain_delay_ms default_delay now = true ∧
      ∀ c2 ∈ p.contexts,
        is_candidate c2 tags domain domain_delay_ms default_delay now = true →
        spec_health_score c ≤ spec_health_score c2) ∧
    ((∀ ctx ∈ p.contexts, ctx.in_use = false → (tags.getD ∅) ⊆ ctx.tags →
        ∀ d, domain = some d →
          can_request ctx d domain_delay_ms default_delay now = false) →
      (∀ d, domain = some d) →
      select_context p tags domain domain_delay_ms default_delay now = none) := by
  have hfilter : ∀ ctx, ctx ∈ p.contexts.filter
      (fun ctx => is_candidate ctx tags domain domain_delay_ms default_delay now) ↔
      ctx ∈ p.contexts ∧
        is_candidate ctx tags domain domain_delay_ms default_delay now = true :=
    fun ctx => List.mem_filter
  refine ⟨?_, ?_, ?_⟩
  · constructor
    · intro hnone ctx hctx
      unfold select_context at hnone
      cases hfil : p.contexts.filter
          (fun ctx => is_candidate ctx tags domain domain_delay_ms default_delay now) with
      | nil =>
        by_contra hcand
        have : ctx ∈ (p.contexts.filter
            (fun ctx => is_candidate ctx tags domain domain_delay_ms default_delay now)) :=
          (hfilter ctx).mpr ⟨hctx, Bool.not_eq_false _ ▸ hcand⟩
        rw [hfil] at this
        exact absurd this (List.not_mem_nil ctx)
      | cons c0 cs0 => rw [hfil] at hnone; exact absurd hnone (by simp)
    · intro hall
      unfold select_context
      cases hfil : p.contexts.filter
          (fun ctx => is_candidate ctx tags domain domain_delay_ms default_delay now) with
      | nil => rfl
      | cons c0 cs0 =>
        have : c0 ∈ (p.contexts.filter
            (fun ctx => is_candidate ctx tags domain domain_delay_ms default_delay now)) := by
          rw [hfil]; exact List.mem_cons_self c0 cs0
        obtain ⟨hmem, hcand⟩ := (hfilter c0).mp this
        exact absurd hcand (by simp [hall c0 hmem])
  · intro c hsel
    unfold select_context at hsel
    cases hfil : p.contexts.filter
        (fun ctx => is_candidate ctx tags domain domain_delay_ms default_delay now) with
    | nil => rw [hfil] at hsel; exact absurd hsel (by simp)
    | cons c0 cs0 =>
      rw [hfil] at hsel
      have hc : c = selectBest c0 cs0 := (Option.some.injEq .. ▸ hsel).symm
      have hmemf : c ∈ c0 :: cs0 := hc ▸ selectBest_mem c0 cs0
      have hcf : c ∈ (p.contexts.filter
          (fun ctx => is_candidate ctx tags domain domain_delay_ms default_delay now)) := by
        rw [hfil]; exact hmemf
      obtain ⟨hmem, hcand⟩ := (hfilter c).mp hcf
      refine ⟨hmem, hcand, ?_⟩
      intro c2 hc2 hcand2
      have hc2f : c2 ∈ c0 :: cs0 := by
        have : c2 ∈ (p.contexts.filter
            (fun ctx => is_candidate ctx tags domain domain_delay_ms default_delay now)) :=
          (hfilter c2).mpr ⟨hc2, hcand2⟩
        rw [hfil] at this; exact this
      obtain ⟨hmin0, hminrest⟩ := selectBest_min c0 cs0
      have hle : health_score c ≤ health_score c2 := by
        rcases List.mem_cons.mp hc2f with rfl | hc2f
        · exact hc ▸ hmin0
        · exact hc ▸ hminrest c2 hc2f
      rw [← health_score_eq_spec c (hreach c hmem),
        ← health_score_eq_spec c2 (hreach c2 hc2)]
      exact hle
  · intro hfail hdom
    unfold select_context
    cases hfil : p.contexts.filter
        (fun ctx => is_candidate ctx tags domain domain_delay_ms default_delay now) with
    | nil => rfl
    | cons c0 cs0 =>
      have : c0 ∈ (p.contexts.filter
          (fun ctx => is_candidate ctx tags domain domain_delay_ms default_delay now)) := by
        rw [hfil]; exact List.mem_cons_self c0 cs0
      obtain ⟨hmem, hcand⟩ := (hfilter c0).mp this
      exfalso
      cases hd : domain with
      | none =>
        have hx := hdom "x"
        rw [hd] at hx
        exact Option.noConfusion hx
      | some d =>
        unfold is_candidate at hcand
        rw [hd] at hcand
        simp only [Bool.and_eq_true, decide_eq_true_eq, Bool.not_eq_eq_eq_not,
          Bool.not_true, Bool.not_eq_true] at hcand
        obtain ⟨⟨huse, htags⟩, hcr⟩ := hcand
        have hfalse := hfail c0 hmem huse htags d hd
        rw [hfalse] at hcr
        exact Bool.false_ne_true hcr

/-- A two-context pool exercising select_context: one busy healthy context
and one free context with errors. -/
def selectPool : PoolState :=
  { contexts :=
      [{ id := "busy", in_use := true },
       { id := "free", tags := {"t"}, total_requests := 4, error_count := 2,
         consecutive_errors := 1 }]
    started := true }

/-- Witness for C3_select_context at a concrete pool: the only available
tagged context is returned. -/
theorem C3_select_context_witness :
    select_context selectPool (some {"t"}) none none 1000 0
      = some { id := "free", tags := {"t"}, total_requests := 4,
               error_count := 2, consecutive_errors := 1 } ∧
    ({ id := "free", tags := {"t"}, total_requests := 4, error_count := 2,
       consecutive_errors := 1 } : ContextInstance) ∈ selectPool.contexts :=
  have h := C3_select_context selectPool (some {"t"}) none none 1000 0 (by decide)
  have hsel : select_context selectPool (some {"t"}) none none 1000 0
      = some { id := "free", tags := {"t"}, total_requests := 4,
               error_count := 2, consecutive_errors := 1 } := by decide
  ⟨hsel, (h.2.1 _ hsel).1⟩

/-! ## C8: one-shot completion slot -/

/-- Helper: when some pending entry carries the id, the settle walk reports
true. -/
theorem settleSlot_fst (rid : String) (v : Except String String)
    (q : List QueuedRequest)
    (hp : ∃ r ∈ q, r.id = rid ∧ r.slot = none) :
    (settleSlot rid v q).1 = true := by
  induction q with
  | nil => obtain ⟨r, hr, -⟩ := hp; exact absurd hr (List.not_mem_nil r)
  | cons r rs ih =>
    unfold settleSlot
    by_cases hcond : r.id = rid ∧ r.slot = none
    · simp [hcond]
    · simp only [hcond, reduceIte]
      obtain ⟨r0, hr0, hprop⟩ := hp
      rcases List.mem_cons.mp hr0 with rfl | hr0
      · exact absurd hprop hcond
      · exact ih ⟨r0, hr0, hprop⟩

/-- Helper: after a successful settle, under unique ids, every entry carrying
the id holds exactly the settled value. -/
theorem settleSlot_sets (rid : String) (v : Except String String)
    (q : List QueuedRequest)
    (hnodup : (q.map QueuedRequest.id).Nodup)
    (hp : ∃ r ∈ q, r.id = rid ∧ r.slot = none) :
    ∀ r ∈ (settleSlot rid v q).2, r.id = rid → r.slot = some v := by
  induction q with
  | nil => obtain ⟨r, hr, -⟩ := hp; exact absurd hr (List.not_mem_nil r)
  | cons r rs ih =>
    have hhead : r.id ∉ rs.map QueuedRequest.id :=
      (List.nodup_cons.mp hnodup).1
    unfold settleSlot
    by_cases hcond : r.id = rid ∧ r.slot = none
    · simp only [hcond, and_self, reduceIte]
      intro r2 hr2 hid2
      rcases List.mem_cons.mp hr2 with rfl | hr2
      · rfl
      · have hmem : r2.id ∈ rs.map QueuedRequest.id :=
          List.mem_map_of_mem QueuedRequest.id hr2
        rw [hid2, ← hcond.1] at hmem
        exact absurd hmem hhead
    · simp only [hcond, reduceIte]
      intro r2 hr2 hid2
      rcases List.mem_cons.mp hr2 with rfl | hr2
      · obtain ⟨r0, hr0, hprop⟩ := hp
        rcases List.mem_cons.mp hr0 with rfl | hr0
        · exact absurd hprop hcond
        · have hmem : r0.id ∈ rs.map QueuedRequest.id :=
            List.mem_map_of_mem QueuedRequest.id hr0
          rw [hprop.1, ← hid2] at hmem
          exact absurd hmem hhead
      · obtain ⟨r0, hr0, hprop⟩ := hp
        rcases List.mem_cons.mp hr0 with rfl | hr0
        · exact absurd hprop hcond
        · exact ih (List.nodup_cons.mp hnodup).2 ⟨r0, hr0, hprop⟩ r2 hr2 hid2

/-- Helper: when no entry carrying the id is pending, the settle walk is a
no-op reporting false. -/
theorem settleSlot_noop (rid : String) (v : Except String String)
    (q : List QueuedRequest)
    (h : ∀ r ∈ q, r.id = rid → r.slot ≠ none) :
    settleSlot rid v q = (false, q) := by
  induction q with
  | nil => rfl
  | cons r rs ih =>
    have hcond : ¬ (r.id = rid ∧ r.slot = none) := fun ⟨h1, h2⟩ =>
      h r (List.mem_cons_self r rs) h1 h2
    unfold settleSlot
    simp only [hcond, reduceIte]
    rw [ih (fun r2 hr2 => h r2 (List.mem_cons_of_mem r hr2))]

/-- Claim C8: under the queue's unique-uuid invariant, the first resolve or
reject on a pending request returns true and fills the slot, and every later
resolve or reject on the same request is a no-op returning false, so the
slot's value never changes after first resolution. -/
theorem C8_slot_once (q : List QueuedRequest) (rid : String)
    (hnodup : (q.map QueuedRequest.id).Nodup)
    (hp : ∃ r ∈ q, r.id = rid ∧ r.slot = none) :
    (∀ ctxId,
      (resolve q rid ctxId).1 = true ∧
      (∀ r ∈ (resolve q rid ctxId).2, r.id = rid → r.slot = some (.ok ctxId)) ∧
      (∀ c2, resolve (resolve q rid ctxId).2 rid c2
          = (false, (resolve q rid ctxId).2)) ∧
      (∀ e2, reject (resolve q rid ctxId).2 rid e2
          = (false, (resolve q rid ctxId).2))) ∧
    (∀ err,
      (reject q rid err).1 = true ∧
      (∀ r ∈ (reject q rid err).2, r.id = rid → r.slot = some (.error err)) ∧
      (∀ c2, resolve (reject q rid err).2 rid c2
          = (false, (reject q rid err).2)) ∧
      (∀ e2, reject (reject q rid err).2 rid e2
          = (false, (reject q rid err).2))) := by
  have main : ∀ v : Except String String,
      (settleSlot rid v q).1 = true ∧
      (∀ r ∈ (settleSlot rid v q).2, r.id = rid → r.slot = some v) ∧
      (∀ w, settleSlot rid w (settleSlot rid v q).2
          = (false, (settleSlot rid v q).2)) := by
    intro v
    refine ⟨settleSlot_fst rid v q hp, settleSlot_sets rid v q hnodup hp, ?_⟩
    intro w
    apply settleSlot_noop
    intro r hr hid hslot
    have := settleSlot_sets rid v q hnodup hp r hr hid
    rw [this] at hslot
    exact Option.noConfusion hslot
  exact ⟨fun ctxId => ⟨(main (.ok ctxId)).1, (main (.ok ctxId)).2.1,
      fun c2 => (main (.ok ctxId)).2.2 (.ok c2),
      fun e2 => (main (.ok ctxId)).2.2 (.error e2)⟩,
    fun err => ⟨(main (.error err)).1, (main (.error err)).2.1,
      fun c2 => (main (.error err)).2.2 (.ok c2),
      fun e2 => (main (.error err)).2.2 (.error e2)⟩⟩

/-- A two-request queue with one pending request named "r2". -/
def slotQueue : List QueuedRequest :=
  [{ id := "r1", slot := some (.ok "c0") }, { id := "r2" }]

/-- Witness for C8_slot_once on the concrete queue. -/
theorem C8_slot_once_witness :
    (resolve slotQueue "r2" "c9").1 = true ∧
    (∀ e2, reject (resolve slotQueue "r2" "c9").2 "r2" e2
        = (false, (resolve slotQueue "r2" "c9").2)) :=
  have h := (C8_slot_once slotQueue "r2" (by decide)
    ⟨{ id := "r2" }, by decide, rfl, rfl⟩).1 "c9"
  ⟨h.1, h.2.2.2⟩

/-! ## C9: cleanup_expired -/

/-- Helper: every request kept by cleanup_expired is an original entry. -/
theorem cleanup_mem_rem (maxWait now : Int) (q : List QueuedRequest) :
    ∀ r2 ∈ (cleanup_expired maxWait now q).2.1, r2 ∈ q := by
  induction q with
  | nil => intro r2 h; exact absurd h (List.not_mem_nil r2)
  | cons r rs ih =>
    unfold cleanup_expired
    by_cases hcond : is_expired maxWait r now = true ∧ r.slot = none
    · simp only [hcond, and_self, reduceIte]
      intro r2 h2
      exact List.mem_cons_of_mem r (ih r2 h2)
    · simp only [hcond, reduceIte]
      intro r2 h2
      rcases List.mem_cons.mp h2 with rfl | h2
      · exact List.mem_cons_self r2 rs
      · exact List.mem_cons_of_mem r (ih r2 h2)

/-- Helper: every rejected request carries the id of an original entry. -/
theorem cleanup_mem_rej (maxWait now : Int) (q : List QueuedRequest) :
    ∀ r2 ∈ (cleanup_expired maxWait now q).2.2, ∃ r0 ∈ q, r2.id = r0.id := by
  induction q with
  | nil => intro r2 h; exact absurd h (List.not_mem_nil r2)
  | cons r rs ih =>
    unfold cleanup_expired
    by_cases hcond : is_expired maxWait r now = true ∧ r.slot = none
    · simp only [hcond, and_self, reduceIte]
      intro r2 h2
      rcases List.mem_cons.mp h2 with rfl | h2
      · exact ⟨r, List.mem_cons_self r rs, rfl⟩
      · obtain ⟨r0, hr0, hid⟩ := ih r2 h2
        exact ⟨r0, List.mem_cons_of_mem r hr0, hid⟩
    · simp only [hcond, reduceIte]
      intro r2 h2
      obtain ⟨r0, hr0, hid⟩ := ih r2 h2
      exact ⟨r0, List.mem_cons_of_mem r hr0, hid⟩

/-- Helper: an expired pending entry is rejected with the timeout failure
and dropped from the remaining queue (under unique ids). -/
theorem cleanup_drops (maxWait now : Int) (q : List QueuedRequest)
    (hnodup : (q.map QueuedRequest.id).Nodup) (r : QueuedRequest)
    (hr : r ∈ q) (hpend : r.slot = none)
    (hexp : is_expired maxWait r now = true) :
    (∀ r2 ∈ (cleanup_expired maxWait now q).2.1, r2.id ≠ r.id) ∧
    { r with slot := some timeoutError } ∈ (cleanup_expired maxWait now q).2.2 := by
  induction q with
  | nil => exact absurd hr (List.not_mem_nil r)
  | cons r0 rs ih =>
    have hhead : r0.id ∉ rs.map QueuedRequest.id := (List.nodup_cons.mp hnodup).1
    have htail : (rs.map QueuedRequest.id).Nodup := (List.nodup_cons.mp hnodup).2
    rcases List.mem_cons.mp hr with rfl | hr
    · have hcond : is_expired maxWait r now = true ∧ r.slot = none := ⟨hexp, hpend⟩
      unfold cleanup_expired
      simp only [hcond, and_self, reduceIte]
      refine ⟨?_, List.mem_cons_self _ _⟩
      intro r2 h2 hid
      have : r2 ∈ rs := cleanup_mem_rem maxWait now rs r2 h2
      have : r2.id ∈ rs.map QueuedRequest.id := List.mem_map_of_mem _ this
      rw [hid] at this
      exact absurd this hhead
    · have ⟨ihrem, ihrej⟩ := ih htail hr
      unfold cleanup_expired
      by_cases hcond : is_expired maxWait r0 now = true ∧ r0.slot = none
      · simp only [hcond, and_self, reduceIte]
        exact ⟨ihrem, List.mem_cons_of_mem _ ihrej⟩
      · simp only [hcond, reduceIte]
        refine ⟨?_, ihrej⟩
        intro r2 h2
        rcases List.mem_cons.mp h2 with h20 | h2
        · intro hid
          have hmem : r.id ∈ rs.map QueuedRequest.id := List.mem_map_of_mem _ hr
          have h20id : r2.id = r0.id := by rw [h20]
          rw [← hid, h20id] at hmem
          exact absurd hmem hhead
        · exact ihrem r2 h2

/-- Helper: an entry that is not both expired and pending is kept verbatim
and never rejected (under unique ids). -/
theorem cleanup_keeps (maxWait now : Int) (q : List QueuedRequest)
    (hnodup : (q.map QueuedRequest.id).Nodup) (r : QueuedRequest)
    (hr : r ∈ q)
    (hkeep : ¬ (is_expired maxWait r now = true ∧ r.slot = none)) :
    r ∈ (cleanup_expired maxWait now q).2.1 ∧
    (∀ r2 ∈ (cleanup_expired maxWait now q).2.2, r2.id ≠ r.id) := by
  induction q with
  | nil => exact absurd hr (List.not_mem_nil r)
  | cons r0 rs ih =>
    have hhead : r0.id ∉ rs.map QueuedRequest.id := (List.nodup_cons.mp hnodup).1
    have htail : (rs.map QueuedRequest.id).Nodup := (List.nodup_cons.mp hnodup).2
    rcases List.mem_cons.mp hr with rfl | hr
    · unfold cleanup_expired
      simp only [hkeep, reduceIte]
      refine ⟨List.mem_cons_self _ _, ?_⟩
      intro r2 h2 hid
      obtain ⟨r1, hr1, hid1⟩ := cleanup_mem_rej maxWait now rs r2 h2
      have : r1.id ∈ rs.map QueuedRequest.id := List.mem_map_of_mem _ hr1
      rw [← hid1, hid] at this
      exact absurd this hhead
    · have ⟨ihrem, ihrej⟩ := ih htail hr
      unfold cleanup_expired
      by_cases hcond : is_expired maxWait r0 now = true ∧ r0.slot = none
      · simp only [hcond, and_self, reduceIte]
        refine ⟨ihrem, ?_⟩
        intro r2 h2
        rcases List.mem_cons.mp h2 with h20 | h2
        · intro hid
          have hmem : r.id ∈ rs.map QueuedRequest.id := List.mem_map_of_mem _ hr
          have h20id : r2.id = r0.id := by rw [h20]
          rw [← hid, h20id] at hmem
          exact absurd hmem hhead
        · exact ihrej r2 h2
      · simp only [hcond, reduceIte]
        exact ⟨List.mem_cons_of_mem r0 ihrem, ihrej⟩

/-- Claim C9: cleanup_expired rejects with the timeout failure and drops
every pending request whose enqueued_at + max_queue_wait < now; a pending
request whose wait equals exactly max_queue_wait also times out; a pending
request that has waited strictly less stays in the queue unrejected. -/
theorem C9_cleanup_expired (maxWait now : Int) (q : List QueuedRequest)
    (hnodup : (q.map QueuedRequest.id).Nodup) :
    (∀ r ∈ q, r.slot = none → r.created_at + maxWait < now →
      (∀ r2 ∈ (cleanup_expired maxWait now q).2.1, r2.id ≠ r.id) ∧
      { r with slot := some timeoutError } ∈ (cleanup_expired maxWait now q).2.2) ∧
    (∀ r ∈ q, r.slot = none → now = r.created_at + maxWait →
      (∀ r2 ∈ (cleanup_expired maxWait now q).2.1, r2.id ≠ r.id) ∧
      { r with slot := some timeoutError } ∈ (cleanup_expired maxWait now q).2.2) ∧
    (∀ r ∈ q, r.slot = none → now - r.created_at < maxWait →
      r ∈ (cleanup_expired maxWait now q).2.1 ∧
      (∀ r2 ∈ (cleanup_expired maxWait now q).2.2, r2.id ≠ r.id)) := by
  refine ⟨?_, ?_, ?_⟩
  · intro r hr hpend hlt
    refine cleanup_drops maxWait now q hnodup r hr hpend ?_
    simp only [is_expired, ge_iff_le, decide_eq_true_eq]
    omega
  · intro r hr hpend heq
    refine cleanup_drops maxWait now q hnodup r hr hpend ?_
    simp only [is_expired, ge_iff_le, decide_eq_true_eq]
    omega
  · intro r hr hpend hlt
    refine cleanup_keeps maxWait now q hnodup r hr ?_
    rintro ⟨hexp, -⟩
    simp only [is_expired, ge_iff_le, decide_eq_true_eq] at hexp
    omega

/-- A queue with one request enqueued at time 0, pending. -/
def waitQueue : List QueuedRequest := [{ id := "w1", created_at := 0 }]

/-- Witness for C9_cleanup_expired: a wait of exactly max_queue_wait times
out — the request is rejected and dropped. -/
theorem C9_cleanup_expired_witness :
    ({ id := "w1", created_at := 0,
       slot := some timeoutError } : QueuedRequest)
      ∈ (cleanup_expired 10 10 waitQueue).2.2 :=
  ((C9_cleanup_expired 10 10 waitQueue (by decide)).2.1
    { id := "w1", created_at := 0 } (by decide) rfl (by decide)).2

/-! ## C1: capacity bound -/

/-- Helper: a successful create_context grows the pool by exactly one. -/
theorem create_context_size (p : PoolState) (newId : String)
    (proxy : Option String) (persistent : Bool) (tags : Option (Finset String))
    (now : Int) (q : PoolState) (ctx : ContextInstance)
    (h : create_context p newId proxy persistent tags now = .ok (q, ctx)) :
    q.size = p.size + 1 := by
  unfold create_context at h
  by_cases hs : p.started
  · simp only [hs, not_true, reduceIte] at h
    obtain ⟨hq, -⟩ := Prod.mk.injEq .. ▸ Except.ok.injEq .. ▸ h
    rw [← hq]
    simp [PoolState.size]
  · simp [hs] at h

/-- Helper: the best-so-far eviction fold yields an input of the scan or its
initial accumulator. -/
theorem foldl_evictStep_mem (cfg : PoolConfig) (ex : Option (Finset String))
    (now : Int) (l : List ContextInstance) :
    ∀ (init : Option (ContextInstance × ℚ)) (b : ContextInstance) (s : ℚ),
      l.foldl (evictStep cfg ex now) init = some (b, s) →
      (∃ s2, init = some (b, s2)) ∨ b ∈ l := by
  induction l with
  | nil => intro init b s h; exact Or.inl ⟨s, h⟩
  | cons c cs ih =>
    intro init b s h
    simp only [List.foldl_cons] at h
    rcases ih (evictStep cfg ex now init c) b s h with ⟨s2, hinit⟩ | hmem
    · unfold evictStep at hinit
      by_cases hex : (ex.getD ∅) ∩ c.tags ≠ ∅
      · rw [if_pos hex] at hinit
        exact Or.inl ⟨s2, hinit⟩
      · rw [if_neg hex] at hinit
        cases hsc : calculate_eviction_score cfg c now with
        | none => rw [hsc] at hinit; exact Or.inl ⟨s2, hinit⟩
        | some sc =>
          rw [hsc] at hinit
          cases init with
          | none =>
            have hinit2 : some (c, sc) = some (b, s2) := hinit
            cases hinit2
            exact Or.inr (List.mem_cons_self c cs)
          | some pr =>
            obtain ⟨b0, bs⟩ := pr
            have hinit2 : (if sc > bs then some (c, sc) else some (b0, bs))
                = some (b, s2) := hinit
            by_cases hgt : sc > bs
            · rw [if_pos hgt] at hinit2
              cases hinit2
              exact Or.inr (List.mem_cons_self c cs)
            · rw [if_neg hgt] at hinit2
              cases hinit2
              exact Or.inl ⟨_, rfl⟩
    · exact Or.inr (List.mem_cons_of_mem c hmem)

/-- Helper: an eviction candidate is one of the pool's contexts. -/
theorem find_eviction_candidate_mem (cfg : PoolConfig)
    (l : List ContextInstance) (ex : Option (Finset String)) (now : Int)
    (c : ContextInstance)
    (h : find_eviction_candidate cfg l ex now = some c) : c ∈ l := by
  unfold find_eviction_candidate at h
  cases hfold : l.foldl (evictStep cfg ex now) none with
  | none => rw [hfold] at h; simp at h
  | some pr =>
    obtain ⟨b, s⟩ := pr
    rw [hfold] at h
    simp only [Option.map_some'] at h
    rcases foldl_evictStep_mem cfg ex now l none b s hfold with ⟨s2, hinit⟩ | hmem
    · exact absurd hinit (by simp)
    · cases h; exact hmem

/-- Helper: deleting a present id shrinks the dict by exactly one entry. -/
theorem remove_by_id_length (l : List ContextInstance) (id : String)
    (h : ∃ c ∈ l, c.id = id) :
    (remove_by_id l id).length + 1 = l.length := by
  induction l with
  | nil => obtain ⟨c, hc, -⟩ := h; exact absurd hc (List.not_mem_nil c)
  | cons c cs ih =>
    unfold remove_by_id
    by_cases hc : c.id = id
    · simp [hc]
    · simp only [hc, reduceIte, List.length_cons]
      obtain ⟨c0, hc0, hid0⟩ := h
      rcases List.mem_cons.mp hc0 with rfl | hc0
      · exact absurd hid0 hc
      · have := ih ⟨c0, hc0, hid0⟩
        omega

/-- Claim C1: the empty pool satisfies the bound; create_context preserves
it under its stated precondition |contexts| < max_contexts; and
evict_and_replace preserves it in its final state and in every pool state
observable at its suspension points (the context dict is shrunk before the
eviction's driver await and refilled only by the final insert). -/
theorem C1_max_contexts (cfg : PoolConfig) (p : PoolState)
    (hsize : p.size ≤ cfg.max_contexts) :
    ({ contexts := [], started := false } : PoolState).size ≤ cfg.max_contexts ∧
    (∀ newId proxy persistent tags now q ctx,
      p.size < cfg.max_contexts →
      create_context p newId proxy persistent tags now = .ok (q, ctx) →
      q.size ≤ cfg.max_contexts) ∧
    (∀ newId tags proxy now obs final created,
      evict_and_replace cfg p newId tags proxy now = .ok (obs, final, created) →
      (∀ s ∈ obs, s.size ≤ cfg.max_contexts) ∧
      final.size ≤ cfg.max_contexts) := by
  refine ⟨Nat.zero_le _, ?_, ?_⟩
  · intro newId proxy persistent tags now q ctx hlt hok
    have := create_context_size p newId proxy persistent tags now q ctx hok
    omega
  · intro newId tags proxy now obs final created hok
    unfold evict_and_replace at hok
    split at hok
    · rename_i hlt
      split at hok
      · exact absurd hok (by simp)
      · rename_i q ctx hcre
        cases hok
        have hq := create_context_size p newId proxy false tags now final ctx hcre
        refine ⟨?_, by omega⟩
        intro s hsmem
        rcases List.mem_singleton.mp hsmem with rfl
        exact hsize
    · rename_i hlt
      split at hok
      · cases hok
        refine ⟨?_, hsize⟩
        intro s hsmem
        rcases List.mem_singleton.mp hsmem with rfl
        exact hsize
      · rename_i cand hfind
        split at hok
        · exact absurd hok (by simp)
        · rename_i removed p2 hrem
          split at hok
          · exact absurd hok (by simp)
          · rename_i q ctx hcre
            cases hok
            have hmem : cand ∈ p.contexts :=
              find_eviction_candidate_mem cfg p.contexts none now cand hfind
            have hp2 : p2.size + 1 = p.size := by
              unfold remove_context at hrem
              cases hg : get_context p cand.id with
              | none =>
                have hSome : (get_context p cand.id).isSome :=
                  List.find?_isSome.mpr ⟨cand, hmem, by simp⟩
                rw [hg] at hSome
                exact absurd hSome (by simp)
              | some inst =>
                rw [hg] at hrem
                have hrem2 : (if inst.in_use = true
                      then (Except.error PoolError.contextInUse :
                        Except PoolError (Bool × PoolState))
                      else Except.ok (true,
                        { p with contexts := remove_by_id p.contexts cand.id }))
                    = Except.ok (removed, p2) := hrem
                by_cases huse : inst.in_use
                · rw [if_pos huse] at hrem2
                  exact absurd hrem2 (by simp)
                · rw [if_neg huse] at hrem2
                  obtain ⟨-, hp2x⟩ := Prod.mk.injEq .. ▸ Except.ok.injEq .. ▸ hrem2
                  rw [← hp2x]
                  exact remove_by_id_length p.contexts cand.id ⟨cand, hmem, rfl⟩
            have hq := create_context_size p2 newId proxy false tags now final ctx hcre
            refine ⟨?_, by omega⟩
            intro s hsmem
            rcases List.mem_cons.mp hsmem with rfl | hsmem
            · exact hsize
            · rcases List.mem_singleton.mp hsmem with rfl
              omega

/-- A one-context configuration for exercising eviction at capacity. -/
def testCfg : PoolConfig :=
  { max_contexts := 1, default_domain_delay_ms := 1000, max_queue_wait := 10,
    max_consecutive_errors := 3, eviction_idle_weight := 1,
    eviction_error_weight := 1, eviction_age_weight := 0 }

/-- A started pool already at the capacity of testCfg. -/
def fullPool : PoolState := { contexts := [{ id := "old" }], started := true }

/-- Witness for C1_max_contexts: a concrete evict-and-replace at capacity
keeps every observable state and the final state within the bound. -/
theorem C1_max_contexts_witness :
    fullPool.size ≤ testCfg.max_contexts ∧
    (∀ s ∈ [fullPool, ({ contexts := [], started := true } : PoolState)],
      s.size ≤ testCfg.max_contexts) ∧
    ({ contexts := [{ id := "n1", created_at := 5 }], started := true } :
        PoolState).size ≤ testCfg.max_contexts :=
  have h := (C1_max_contexts testCfg fullPool (by decide)).2.2 "n1" none none 5
    [fullPool, { contexts := [], started := true }]
    { contexts := [{ id := "n1", created_at := 5 }], started := true }
    (some { id := "n1", created_at := 5 })
    (by decide)
  ⟨by decide, h.1, h.2⟩

end BrowserScraperPool
